import Mathlib

/-!
Verification of the cli-switch shell-integration core: a shallow embedding of
the context-menu registrar (`src-tauri/src/commands/context_menu.rs`), the
version probe, the CLI installer and the terminal launcher
(`src-tauri/src/commands/misc.rs`), together with theorems settling the
specified behaviour.  Machine integers do not occur in this code; strings are
modelled as Lean `String`, the Windows registry as a list of key paths, the
macOS Services directory as a list of workflow file names, and OS process
spawns as explicit outcome oracles.
-/

set_option maxRecDepth 4096

/-! ## Version extraction (`misc.rs`, `extract_version` / `VERSION_RE`)

The regex `\d+\.\d+\.\d+(-[\w.]+)?` is embedded as an executable leftmost
matcher.  The character classes are modelled at ASCII (the inputs produced by
the probed tools are ASCII version banners); for this pattern greedy maximal
munch needs no backtracking because `\d` excludes `.` and both repetitions
are followed by a character they cannot consume. -/

/-- ASCII model of the regex class `\d`. -/
def isDigitChar (c : Char) : Bool := c.isDigit

/-- ASCII model of the regex class `[\w.]`. -/
def isWordDotChar (c : Char) : Bool := c.isAlphanum || c == '_' || c == '.'

/-- Match `\d+\.\d+\.\d+(-[\w.]+)?` at the head of `s`, returning the matched
characters. -/
def matchVersionAt (s : List Char) : Option (List Char) :=
  let (d1, r1) := s.span isDigitChar
  if d1.isEmpty then none else
  match r1 with
  | '.' :: r2 =>
    let (d2, r3) := r2.span isDigitChar
    if d2.isEmpty then none else
    match r3 with
    | '.' :: r4 =>
      let (d3, r5) := r4.span isDigitChar
      if d3.isEmpty then none else
      let core := d1 ++ '.' :: d2 ++ '.' :: d3
      match r5 with
      | '-' :: r6 =>
        let (w, _) := r6.span isWordDotChar
        if w.isEmpty then some core else some (core ++ '-' :: w)
      | _ => some core
    | _ => none
  | _ => none

/-- Leftmost match of the version regex (`Regex::find` semantics: the first
start position with a match wins). -/
def findVersion : List Char → Option (List Char)
  | [] => none
  | c :: rest =>
    match matchVersionAt (c :: rest) with
    | some m => some m
    | none => findVersion rest

/-- `extract_version` from `misc.rs`: the first regex match, or the raw input
unchanged when there is none. -/
def extract_version (raw : String) : String :=
  match findVersion raw.data with
  | some m => String.mk m
  | none => raw

/-! ## Environment extraction (`misc.rs`, `extract_env_vars_from_config`) -/

/-- The app types of `app_config::AppType`. -/
inductive AppType where
  | Claude
  | Codex
  | Gemini
  | OpenCode
deriving DecidableEq

/-- Shallow model of `serde_json::Value`; objects are association lists. -/
inductive Json where
  | str : String → Json
  | obj : List (String × Json) → Json
  | arr : List Json → Json
  | num : Int → Json
  | bool : Bool → Json
  | null : Json

/-- `Value::as_object`. -/
def Json.as_object : Json → Option (List (String × Json))
  | .obj m => some m
  | _ => none

/-- `Value::as_str`. -/
def Json.as_str : Json → Option String
  | .str s => some s
  | _ => none

/-- `Map::get` on a JSON object. -/
def jsonGet (m : List (String × Json)) (k : String) : Option Json :=
  (m.find? (fun p => p.1 == k)).map Prod.snd

/-- `extract_env_vars_from_config` from `misc.rs`: copy string values of the
`env` object, resurface the app-specific base-URL key, then map `auth`
(Codex) and `api_key` (Gemini). -/
def extract_env_vars_from_config (config : Json) (app_type : AppType) :
    List (String × String) :=
  match config.as_object with
  | none => []
  | some obj =>
    let envPairs :=
      match (jsonGet obj "env").bind Json.as_object with
      | none => []
      | some env =>
        let copied := env.filterMap (fun p => (p.2.as_str).map (fun s => (p.1, s)))
        let base_url_key : Option String :=
          match app_type with
          | .Claude => some "ANTHROPIC_BASE_URL"
          | .Gemini => some "GOOGLE_GEMINI_BASE_URL"
          | _ => none
        match base_url_key with
        | some key =>
          match (jsonGet env key).bind Json.as_str with
          | some url => copied ++ [(key, url)]
          | none => copied
        | none => copied
    let envPairs :=
      if app_type = .Codex then
        match (jsonGet obj "auth").bind Json.as_str with
        | some auth => envPairs ++ [("OPENAI_API_KEY", auth)]
        | none => envPairs
      else envPairs
    if app_type = .Gemini then
      match (jsonGet obj "api_key").bind Json.as_str with
      | some k => envPairs ++ [("GEMINI_API_KEY", k)]
      | none => envPairs
    else envPairs

/-- The C6 test configuration `{"auth": "sk-live-abc"}`. -/
def codexAuthConfig : Json := Json.obj [("auth", Json.str "sk-live-abc")]

/-- The C10 configuration `{"env": {"ANTHROPIC_BASE_URL": "https://x"}}`. -/
def claudeBaseUrlConfig : Json :=
  Json.obj [("env", Json.obj [("ANTHROPIC_BASE_URL", Json.str "https://x")])]

/-! ## Terminal launch script (`misc.rs`, `launch_macos_terminal` /
`launch_linux_terminal`)

Both platform variants emit the same shell script text; the construction is
embedded verbatim (`\x27` is the single-quote character of the `trap`
command). -/

/-- The Claude cleanup command `rm -f "<config_path>"`. -/
def cleanup_command_claude (config_path : String) : String :=
  "rm -f \"" ++ config_path ++ "\""

/-- The `cleanup` field spliced into the trap: the cleanup command wrapped in
`; "..."` (from `format!(r#"; "{}""#, cleanup_command)`). -/
def claude_cleanup_field (config_path : String) : String :=
  "; \"" ++ cleanup_command_claude config_path ++ "\""

/-- The Claude launch command `claude --settings "<config_path>"`. -/
def launch_command_claude (config_path : String) : String :=
  "claude --settings \"" ++ config_path ++ "\""

/-- The generated launcher script text (shared macOS/Linux template). -/
def launch_script_content (script_file cd_command launch_command cleanup : String) :
    String :=
  "#!/bin/bash\ntrap \x27rm -f \"" ++ script_file ++ "\" " ++ cleanup ++
    "\x27 EXIT\n" ++ cd_command ++ "\nexec " ++ launch_command ++ "\n"

/-- The script written for a Claude terminal launch. -/
def claude_launch_script (script_file config_path cd_command : String) : String :=
  launch_script_content script_file cd_command (launch_command_claude config_path)
    (claude_cleanup_field config_path)

/-! ## Version probe dispatch (`misc.rs`, `get_tool_versions` /
`wsl_distro_for_tool` / `wsl_distro_from_path`)

The per-tool branch of the `get_tool_versions` loop (tools other than
`nodejs`) is embedded with the three strategies as outcome parameters:
`direct` is the result of the plain `<tool> --version` invocation, `scan` the
result of the install-directory scan, and `wsl` the result of bridging
through a WSL distribution. -/

/-- ASCII-lowercase a character (model of `eq_ignore_ascii_case`). -/
def asciiLower (c : Char) : Char := c.toLower

/-- `str::eq_ignore_ascii_case`. -/
def eqIgnoreAsciiCase (a b : String) : Bool :=
  a.data.map asciiLower == b.data.map asciiLower

/-- Parse the server and share of a plain UNC path `\\server\share\...`
(model of the `Prefix::UNC` component produced by the Rust path parser for
the `\\wsl$\...` and `\\wsl.localhost\...` forms). -/
def splitUNC (cs : List Char) : Option (String × String) :=
  match cs with
  | '\\' :: '\\' :: rest =>
    let (srv, rest2) := rest.span (fun c => !(c == '\\'))
    match rest2 with
    | '\\' :: rest3 =>
      let (share, _) := rest3.span (fun c => !(c == '\\'))
      some (String.mk srv, String.mk share)
    | _ => some (String.mk srv, "")
  | _ => none

/-- `wsl_distro_from_path`: the share name of a `wsl$`/`wsl.localhost` UNC
path, when nonempty. -/
def wsl_distro_from_path (path : String) : Option String :=
  match splitUNC path.data with
  | some (server, share) =>
    if (eqIgnoreAsciiCase server "wsl$" || eqIgnoreAsciiCase server "wsl.localhost")
        && !(share == "") then
      some share
    else none
  | none => none

/-- `wsl_distro_for_tool`: look up the tool's configured override directory
(`overrides` models the settings getters) and extract a distro from it. -/
def wsl_distro_for_tool (overrides : String → Option String) (tool : String) :
    Option String :=
  match (if tool = "claude" ∨ tool = "codex" ∨ tool = "gemini" ∨ tool = "opencode"
         then overrides tool else none) with
  | some dir => wsl_distro_from_path dir
  | none => none

/-- A probe outcome: the `(version, error)` pair of `misc.rs`. -/
abbrev ProbeOutcome := Option String × Option String

/-- The per-tool dispatch of `get_tool_versions` (non-`nodejs` branch): WSL
bridge when an override directory names a distro, otherwise the direct
invocation, falling back to the directory scan when the direct invocation
yields no version. -/
def probe_tool (overrides : String → Option String) (tool : String)
    (direct scan : ProbeOutcome) (wsl : String → ProbeOutcome) : ProbeOutcome :=
  match wsl_distro_for_tool overrides tool with
  | some distro => wsl distro
  | none => if direct.1.isSome then direct else scan

/-- The override-settings oracle of the C3 counterexample: the Claude
override directory points into a WSL distribution. -/
def wslOverrides : String → Option String :=
  fun t => if t = "claude" then some "\\\\wsl$\\Ubuntu\\home\\u" else none

/-! ## Probe attempt results (`misc.rs`, `try_get_version_with_command` /
`scan_cli_version`)

A spawned command either yields an exit status with captured output or fails
to spawn; the scan is given the list of command outcomes at the candidate
directories where the tool file exists, in scan order. -/

/-- Outcome of one `Command::output()` call. -/
inductive CmdOutcome where
  | ok (success : Bool) (stdout stderr : String)
  | err (msg : String)

/-- `try_get_version_with_command`: stdout (fallback stderr) of a successful
run is fed to `extract_version`; failures and empty output become error
strings. -/
def try_get_version_with_command (o : CmdOutcome) : ProbeOutcome :=
  match o with
  | .err e => (none, some e)
  | .ok success stdout stderr =>
    let stdout := stdout.trim
    let stderr := stderr.trim
    if success then
      let raw := if stdout == "" then stderr else stdout
      if raw == "" then (none, some "not installed or not executable")
      else (some (extract_version raw), none)
    else
      let e := if stderr == "" then stdout else stderr
      (none, some (if e == "" then "not installed or not executable" else e))

/-- The directory-scan loop of `scan_cli_version`: first candidate whose run
succeeds with nonempty output wins; otherwise "not installed". -/
def scan_cli_version (outcomes : List CmdOutcome) : ProbeOutcome :=
  match outcomes with
  | [] => (none, some "not installed or not executable")
  | o :: rest =>
    match o with
    | .ok success stdout stderr =>
      let stdout := stdout.trim
      let stderr := stderr.trim
      if success then
        let raw := if stdout == "" then stderr else stdout
        if !(raw == "") then (some (extract_version raw), none)
        else scan_cli_version rest
      else scan_cli_version rest
    | .err _ => scan_cli_version rest

/-! ## CLI installer (`misc.rs`, `install_cli_tool`)

The npm process runs are outcome oracles; the non-Windows escalation chain
(cached sudo, then plain, then the interactive authorization prompt) is
embedded as `escalate_npm`. -/

/-- `CliToolAction`. -/
inductive CliToolAction where
  | install
  | upgrade
deriving DecidableEq

/-- Captured output of a spawned process. -/
structure ProcOut where
  success : Bool
  stdout : String
  stderr : String
deriving DecidableEq

/-- `CliToolInstallResult`. -/
structure CliToolInstallResult where
  success : Bool
  tool : String
  action : CliToolAction
  message : String
  output : String
  error : Option String

/-- The validated tool names. -/
def knownCliTools : List String := ["claude", "codex", "gemini", "opencode"]

/-- `get_npm_package_for_tool`. -/
def get_npm_package_for_tool (tool : String) : Option String :=
  if tool = "claude" then some "@anthropic-ai/claude-code"
  else if tool = "codex" then some "@openai/codex"
  else if tool = "gemini" then some "@google/gemini-cli"
  else if tool = "opencode" then some "opencode-ai"
  else none

/-- The plain-then-prompt tail of the escalation chain. -/
def escalate_rest (noSudo prompt : Option ProcOut) : Option ProcOut :=
  match noSudo with
  | some o => if o.success then some o else prompt
  | none => prompt

/-- The non-Windows escalation chain: a cached-sudo attempt, then a plain
attempt, then the interactive authorization prompt; `none` means the spawn
itself failed. -/
def escalate_npm (sudoCached noSudo prompt : Option ProcOut) : Option ProcOut :=
  match sudoCached with
  | some o => if o.success then some o else escalate_rest noSudo prompt
  | none => escalate_rest noSudo prompt

/-- The rejection result returned for an unsupported tool name. -/
def unsupportedResult (tool : String) (action : CliToolAction) :
    CliToolInstallResult :=
  { success := false, tool := tool, action := action,
    message := "不支持的工具: " ++ tool, output := "", error := some "Unsupported tool" }

/-- `install_cli_tool` (non-Windows build): validate the tool name, run the
escalation chain, and package the outcome; `probedVersion` is the
post-install `try_get_version` result used only in the success message. -/
def install_cli_tool (tool : String) (action : CliToolAction)
    (sudoCached noSudo prompt : Option ProcOut) (probedVersion : Option String) :
    Except String CliToolInstallResult :=
  if !(knownCliTools.contains tool) then
    Except.ok (unsupportedResult tool action)
  else
    match get_npm_package_for_tool tool with
    | none => Except.error ("工具 " ++ tool ++ " 不支持 npm 安装")
    | some _package =>
      match escalate_npm sudoCached noSudo prompt with
      | none => Except.error "执行 npm 命令失败: 执行授权命令失败"
      | some out =>
        if out.success then
          let version_msg :=
            match probedVersion with
            | some v => "当前版本: " ++ v
            | none => "版本检测失败，请手动验证"
          Except.ok
            { success := true, tool := tool, action := action,
              message := (match action with
                          | .install => "安装"
                          | .upgrade => "升级") ++ "成功，" ++ version_msg,
              output := out.stdout, error := none }
        else
          let error_msg := if out.stderr == "" then out.stdout else out.stderr
          Except.ok
            { success := false, tool := tool, action := action,
              message := (match action with
                          | .install => "安装"
                          | .upgrade => "升级") ++ "失败",
              output := out.stdout, error := some error_msg }

/-! ## Registry-key sanitization (`context_menu.rs`, `sanitize_registry_key`) -/

/-- The reserved characters replaced by the sanitizer. -/
def reservedChars : List Char := ['\\', '/', ':', '*', '?', '"', '<', '>', '|']

/-- One character of `sanitize_registry_key`. -/
def sanitize_char (c : Char) : Char := if c ∈ reservedChars then '_' else c

/-- `sanitize_registry_key`: reserved characters become `_`. -/
def sanitize_registry_key (s : String) : String :=
  String.mk (s.data.map sanitize_char)

/-- The verb derived for a Claude provider
(`format!("ccswitch.claude.{}", sanitize_registry_key(&provider_id))`). -/
def claude_provider_verb (pid : String) : String :=
  "ccswitch.claude." ++ sanitize_registry_key pid

/-- A provider row as read from the store (`name`, optional `notes`). -/
structure Provider where
  name : String
  notes : Option String
deriving DecidableEq

/-! ## Windows registrar (`context_menu.rs`, `register_menus_at_path` /
`unregister_context_menu` / `is_context_menu_registered`)

The interactive user's registry hive is modelled as the list of existing key
paths (a path is its list of components).  `create_subkey` adds a key,
`delete_subkey_all` removes a key and its whole subtree, `enum_keys` lists
the names of a key's direct children; registry values are irrelevant to the
claims and are not modelled. -/

/-- A registry key path, as components. -/
abbrev RegPath := List String

/-- The set of existing keys of the hive. -/
abbrev Registry := List RegPath

/-- Boolean path-extension test: `listPre p k` holds when `k` lies in the
subtree rooted at `p` (including `p` itself). -/
def listPre : List String → List String → Bool
  | [], _ => true
  | _ :: _, [] => false
  | a :: as, b :: bs => a == b && listPre as bs

/-- `create_subkey`. -/
def regCreate (p : RegPath) (r : Registry) : Registry :=
  if p ∈ r then r else p :: r

/-- `delete_subkey_all`: drop the whole subtree below (and including) `p`. -/
def regDeleteAll (p : RegPath) (r : Registry) : Registry :=
  r.filter (fun k => !(listPre p k))

/-- `MENU_REGISTRY_KEY`:
`Software\Classes\Directory\Background\shell\CLI Switch`. -/
def menuRegistryPath : RegPath :=
  ["Software", "Classes", "Directory", "Background", "shell", "CLI Switch"]

/-- The legacy `Directory\shell` location cleared by `unregister`. -/
def oldDirShellPath : RegPath :=
  ["Software", "Classes", "Directory", "shell", "CLI Switch"]

/-- The `Shell` subkey holding the cascading menu's child verbs. -/
def shellSubPath (base : RegPath) : RegPath := base ++ ["Shell"]

/-- The name of `k` as a direct child of `p`, when it is one. -/
def childName (p k : RegPath) : Option String :=
  if k.take p.length = p then
    match k.drop p.length with
    | [n] => some n
    | _ => none
  else none

/-- `enum_keys`: names of the direct children of `p`. -/
def enumKeys (p : RegPath) (r : Registry) : List String :=
  r.filterMap (childName p)

/-- `register_shell_verb`: create the verb key and its `command` subkey. -/
def register_shell_verb (base : RegPath) (verb : String) (r : Registry) : Registry :=
  regCreate (shellSubPath base ++ [verb, "command"])
    (regCreate (shellSubPath base ++ [verb]) r)

/-- One step of the clearing loop of `register_menus_at_path`.  The source
iterates `shell_key.enum_keys()` lazily — winreg's `EnumKeys` iterator calls
`RegEnumKeyExW` with an index it increments on every step — while deleting
the enumerated child inside the loop body, so each deletion shifts the
remaining children down one position and the incremented index skips the
next child.  The embedding accordingly re-enumerates the live registry at
the incremented index; the loop stops when the index runs past the current
children. -/
def clearShellChildrenLoop (base : RegPath) (r : Registry) (i : Nat) : Registry :=
  match h : (enumKeys (shellSubPath base) r)[i]? with
  | none => r
  | some n =>
    clearShellChildrenLoop base (regDeleteAll (shellSubPath base ++ [n]) r) (i + 1)
termination_by (enumKeys (shellSubPath base) r).length - i
decreasing_by
  have hlt : i < (enumKeys (shellSubPath base) r).length := by
    by_contra hge
    rw [List.getElem?_eq_none (Nat.le_of_not_lt hge)] at h
    exact Option.noConfusion h
  have hle : (enumKeys (shellSubPath base)
      (regDeleteAll (shellSubPath base ++ [n]) r)).length ≤
      (enumKeys (shellSubPath base) r).length := by
    simp only [enumKeys, regDeleteAll]
    exact List.Sublist.length_le (List.Sublist.filterMap _ (List.filter_sublist _))
  omega

/-- The clearing loop of `register_menus_at_path`: delete the subtree of
every child of `Shell` returned by the index-based enumeration, starting at
index 0. -/
def clearShellChildren (base : RegPath) (r : Registry) : Registry :=
  clearShellChildrenLoop base r 0

/-- `register_menus_at_path`: ensure the root and `Shell` keys, clear the
existing children, then register one verb per Claude provider and one direct
verb for each of codex, gemini and opencode. -/
def register_menus_at_path (base : RegPath)
    (providers : List (String × Provider)) (r : Registry) : Registry :=
  ["codex", "gemini", "opencode"].foldl
    (fun acc app => register_shell_verb base ("ccswitch." ++ app) acc)
    (providers.foldl
      (fun acc pp => register_shell_verb base (claude_provider_verb pp.1) acc)
      (clearShellChildren base (regCreate (shellSubPath base) (regCreate base r))))

/-- `register_context_menu` (Windows): register at the background-shell
path. -/
def register_context_menu_win (providers : List (String × Provider))
    (r : Registry) : Registry :=
  register_menus_at_path menuRegistryPath providers r

/-- `unregister_context_menu` (Windows): best-effort deletion of both menu
subtrees; always returns `Ok(())`. -/
def unregister_context_menu_win (r : Registry) : Except String Unit × Registry :=
  (Except.ok (), regDeleteAll menuRegistryPath (regDeleteAll oldDirShellPath r))

/-- `is_context_menu_registered` (Windows): does the root key open. -/
def is_context_menu_registered_win (r : Registry) : Bool :=
  decide (menuRegistryPath ∈ r)

/-- The verbs a registration writes, in creation order. -/
def allRegisteredVerbs (providers : List (String × Provider)) : List String :=
  providers.map (fun pp => claude_provider_verb pp.1) ++
    ["ccswitch.codex", "ccswitch.gemini", "ccswitch.opencode"]

/-! ## macOS registrar (`context_menu.rs`, `create_workflow` /
`register_context_menu` / `unregister_context_menu` /
`is_context_menu_registered`)

The `~/Library/Services` directory is modelled as `Option (List String)`:
`none` when the directory does not exist, otherwise the list of its entry
names.  `create_workflow` replaces any bundle of the same derived name. -/

/-- Boolean string-begins test used for the workflow-name convention. -/
def strBegins (s p : String) : Bool := p.data.isPrefixOf s.data

/-- Boolean string-finishes test used for the workflow-name convention. -/
def strFinishes (s p : String) : Bool := p.data.isSuffixOf s.data

/-- The bundle file name derived from a display name
(`display_name.replace('/', "-").replace(':', "-")` plus `.workflow`). -/
def safe_workflow_name (display : String) : String :=
  String.mk (display.data.map (fun c =>
    if c == '/' then '-' else if c == ':' then '-' else c)) ++ ".workflow"

/-- `create_workflow`: delete any existing bundle of the same name, then
write the new bundle. -/
def create_workflow (display : String) (files : List String) : List String :=
  files.filter (fun n => !(n == safe_workflow_name display)) ++
    [safe_workflow_name display]

/-- The display name of a Claude provider entry. -/
def claude_display (p : String × Provider) : String :=
  match p.2.notes with
  | some notes => "Open Claude - " ++ p.2.name ++ " - " ++ notes
  | none => "Open Claude - " ++ p.2.name

/-- `capitalize`. -/
def capitalize (s : String) : String :=
  match s.data with
  | [] => ""
  | c :: rest => String.mk (c.toUpper :: rest)

/-- `register_context_menu` (macOS): ensure the Services directory, then
create one workflow per Claude provider and one per remaining app type.  No
pre-existing workflow other than the recreated ones is touched. -/
def register_context_menu_macos (providers : List (String × Provider))
    (fs : Option (List String)) : Option (List String) :=
  let files := fs.getD []
  let files := providers.foldl (fun acc p => create_workflow (claude_display p) acc) files
  some (["codex", "gemini", "opencode"].foldl
    (fun acc app => create_workflow ("Open " ++ capitalize app ++ " Terminal") acc)
    files)

/-- The recognizer of generated bundles used by `unregister` and
`is_registered`. -/
def isGeneratedWorkflow (n : String) : Bool :=
  strFinishes n ".workflow" &&
    (strBegins n "Open Claude" || strBegins n "Open Codex Terminal" ||
      strBegins n "Open Gemini Terminal" || strBegins n "Open OpenCode Terminal" ||
      strBegins n "CCSwitch")

/-- `unregister_context_menu` (macOS): fails when the Services directory is
unreadable, otherwise removes every recognized bundle. -/
def unregister_context_menu_macos (fs : Option (List String)) :
    Except String (Option (List String)) :=
  match fs with
  | none => Except.error "读取 Services 目录失败"
  | some files => Except.ok (some (files.filter (fun n => !(isGeneratedWorkflow n))))

/-- `is_context_menu_registered` (macOS): some recognized bundle exists. -/
def is_context_menu_registered_macos (fs : Option (List String)) : Bool :=
  match fs with
  | none => false
  | some files => files.any isGeneratedWorkflow

/-- The number of Quick Action menu entries present on the macOS side: every
`.workflow` bundle in the Services directory is one context-menu entry. -/
def workflowEntryCount (fs : Option (List String)) : Nat :=
  ((fs.getD []).filter (fun n => strFinishes n ".workflow")).length

/-! ## Predicates used by the claims -/

/-- Exactly one of `(version, error)` is populated. -/
def exactlyOnePopulated (p : ProbeOutcome) : Prop :=
  (p.1.isSome = true ∧ p.2 = none) ∨ (p.1 = none ∧ p.2.isSome = true)

/-- The id contains none of the reserved characters. -/
def noReservedChars (s : String) : Prop :=
  ∀ c ∈ s.data, c ∉ reservedChars

/-- The two ids differ only in characters outside the reserved set: at every
common position where they disagree, both characters are unreserved. -/
def diffOnlyOutsideReserved (a b : String) : Prop :=
  ∀ (i : Nat) (ha : i < a.data.length) (hb : i < b.data.length),
    a.data.get ⟨i, ha⟩ ≠ b.data.get ⟨i, hb⟩ →
      a.data.get ⟨i, ha⟩ ∉ reservedChars ∧ b.data.get ⟨i, hb⟩ ∉ reservedChars

/-! ## Theorems -/

/-- C6: for app type Codex with configuration `{"auth": "sk-live-abc"}`,
environment extraction yields exactly the single pair
`OPENAI_API_KEY=sk-live-abc` and no other keys. -/
theorem codex_auth_env_extraction :
    extract_env_vars_from_config codexAuthConfig AppType.Codex =
      [("OPENAI_API_KEY", "sk-live-abc")] := by decide

/-- `Map::get` on a nonempty object tests the head key first. -/
theorem jsonGet_cons (k2 : String) (v : Json) (rest : List (String × Json))
    (k : String) :
    jsonGet ((k2, v) :: rest) k = if k2 == k then some v else jsonGet rest k := by
  simp only [jsonGet, List.find?_cons]
  cases hb : k2 == k
  · simp [hb]
  · simp [hb]

/-- The verbatim `env` copy contains no pair keyed by an absent key. -/
theorem count_env_copy_of_not_mem (k url : String) :
    ∀ env : List (String × Json), k ∉ env.map Prod.fst →
      (env.filterMap (fun p => (p.2.as_str).map (fun s => (p.1, s)))).count
        (k, url) = 0 := by
  intro env
  induction env with
  | nil => intro _; rfl
  | cons p rest ih =>
    intro hk
    obtain ⟨k2, v⟩ := p
    simp only [List.map_cons, List.mem_cons] at hk
    push_neg at hk
    obtain ⟨hne, hrest⟩ := hk
    simp only [List.filterMap_cons]
    cases hv : v.as_str with
    | none =>
      simp only [hv, Option.map_none']
      exact ih hrest
    | some s =>
      simp only [hv, Option.map_some']
      rw [List.count_cons, ih hrest]
      have hb : ((k2, s) == (k, url)) = false := by
        simp
        intro hh
        exact absurd hh.symm hne
      rw [hb]
      rfl

/-- When an object with pairwise-distinct keys maps `k` to the string `url`,
the verbatim `env` copy contains the pair `(k, url)` exactly once. -/
theorem count_env_copy_of_get (k url : String) :
    ∀ env : List (String × Json), (env.map Prod.fst).Nodup →
      jsonGet env k = some (Json.str url) →
      (env.filterMap (fun p => (p.2.as_str).map (fun s => (p.1, s)))).count
        (k, url) = 1 := by
  intro env
  induction env with
  | nil =>
    intro _ h
    simp [jsonGet] at h
  | cons p rest ih =>
    intro hnd hget
    obtain ⟨k2, v⟩ := p
    rw [List.map_cons, List.nodup_cons] at hnd
    obtain ⟨hk2, hndr⟩ := hnd
    rw [jsonGet_cons] at hget
    by_cases hkk : k2 = k
    · subst hkk
      rw [if_pos (by simp)] at hget
      have hv : v = Json.str url := Option.some.inj hget
      subst hv
      have has : (Json.str url).as_str = some url := rfl
      simp only [List.filterMap_cons, has, Option.map_some']
      rw [List.count_cons, count_env_copy_of_not_mem k2 url rest hk2]
      simp
    · rw [if_neg (by simpa using hkk)] at hget
      simp only [List.filterMap_cons]
      cases hv : v.as_str with
      | none =>
        simp only [hv, Option.map_none']
        exact ih hndr hget
      | some s =>
        simp only [hv, Option.map_some']
        rw [List.count_cons, ih hndr hget]
        have hb : ((k2, s) == (k, url)) = false := by
          simp
          intro hh
          exact absurd hh hkk
        rw [hb]
        rfl

/-- C10: for app type Claude, for every configuration whose `env` object
(with pairwise-distinct keys, as in a `serde_json::Map`) contains the key
`ANTHROPIC_BASE_URL` with any string value, extraction returns the pair
`(ANTHROPIC_BASE_URL, value)` exactly twice — once from the verbatim copy of
`env` and once more from the base-URL resurfacing step — rather than once. -/
theorem claude_base_url_pair_duplicated :
    ∀ (obj env : List (String × Json)) (url : String),
      jsonGet obj "env" = some (Json.obj env) →
      (env.map Prod.fst).Nodup →
      jsonGet env "ANTHROPIC_BASE_URL" = some (Json.str url) →
      (extract_env_vars_from_config (Json.obj obj) AppType.Claude).count
        ("ANTHROPIC_BASE_URL", url) = 2 := by
  intro obj env url henv hnd hurl
  have has : (Json.str url).as_str = some url := rfl
  have hres : extract_env_vars_from_config (Json.obj obj) AppType.Claude =
      (env.filterMap (fun p => (p.2.as_str).map (fun s => (p.1, s)))) ++
        [("ANTHROPIC_BASE_URL", url)] := by
    simp only [extract_env_vars_from_config, Json.as_object, henv,
      Option.some_bind, hurl, has]
    rw [if_neg (by decide : ¬ (AppType.Claude = AppType.Gemini)),
      if_neg (by decide : ¬ (AppType.Claude = AppType.Codex))]
  rw [hres, List.count_append, count_env_copy_of_get _ _ env hnd hurl]
  simp

/-- C10 witness: the duplication at the concrete configuration
`{"env": {"ANTHROPIC_BASE_URL": "https://x"}}`. -/
theorem claude_base_url_pair_duplicated_witness :
    jsonGet [("env", Json.obj [("ANTHROPIC_BASE_URL", Json.str "https://x")])]
        "env" = some (Json.obj [("ANTHROPIC_BASE_URL", Json.str "https://x")]) ∧
    ([("ANTHROPIC_BASE_URL", Json.str "https://x")].map Prod.fst).Nodup ∧
    jsonGet [("ANTHROPIC_BASE_URL", Json.str "https://x")] "ANTHROPIC_BASE_URL" =
      some (Json.str "https://x") ∧
    (extract_env_vars_from_config claudeBaseUrlConfig AppType.Claude).count
      ("ANTHROPIC_BASE_URL", "https://x") = 2 ∧
    extract_env_vars_from_config claudeBaseUrlConfig AppType.Claude =
      [("ANTHROPIC_BASE_URL", "https://x"), ("ANTHROPIC_BASE_URL", "https://x")] := by
  refine ⟨rfl, by decide, rfl, ?_, by decide⟩
  exact claude_base_url_pair_duplicated
    [("env", Json.obj [("ANTHROPIC_BASE_URL", Json.str "https://x")])]
    [("ANTHROPIC_BASE_URL", Json.str "https://x")] "https://x" rfl (by decide) rfl

/-- C2 (code bug): the script generated for a Claude terminal launch, at the
concrete launch with script `/tmp/cc_switch_launcher_1.sh`, settings file
`/tmp/claude_p_1.json` and no working directory.  The evaluation exhibits the
two defects described in RESULTS: the settings-file deletion inside the trap
is itself wrapped in double quotes, so when the trap fires it parses as the
single command word `rm -f /tmp/claude_p_1.json`, which names no executable;
and the `exec` line replaces the shell, so on the normal path the EXIT trap
never fires at all. -/
theorem claude_launch_script_trap_eval :
    claude_launch_script "/tmp/cc_switch_launcher_1.sh" "/tmp/claude_p_1.json" "" =
      "#!/bin/bash\ntrap \x27rm -f \"/tmp/cc_switch_launcher_1.sh\" ; \"rm -f \"/tmp/claude_p_1.json\"\"\x27 EXIT\n\nexec claude --settings \"/tmp/claude_p_1.json\"\n" ∧
    claude_cleanup_field "/tmp/claude_p_1.json" =
      "; \"rm -f \"/tmp/claude_p_1.json\"\"" := by
  exact ⟨by decide, by decide⟩

/-- C5 (counterexample): on an input containing no regex match,
`extract_version` returns the input unchanged, not trimmed — refuting the
claim that every matchless input yields the trimmed input. -/
theorem extract_version_untrimmed_counterexample :
    findVersion (" no version info here").data = none ∧
    extract_version " no version info here" = " no version info here" ∧
    " no version info here" ≠ "no version info here" := by
  exact ⟨by decide, by decide, by decide⟩

/-- C5 (amended): `extract_version` returns the first regex match — so the
two documented examples hold — and on every input with no match it returns
the input verbatim (unchanged, not trimmed; the callers trim before calling). -/
theorem extract_version_behavior :
    extract_version "claude-code v1.2.3-beta.1 (build X)" = "1.2.3-beta.1" ∧
    extract_version "no version info here" = "no version info here" ∧
    (∀ raw : String, findVersion raw.data = none → extract_version raw = raw) := by
  refine ⟨by decide, by decide, ?_⟩
  intro raw h
  unfold extract_version
  rw [h]

/-- C5 witness: the no-match clause of `extract_version_behavior` applied at
a concrete matchless input. -/
theorem extract_version_behavior_witness :
    findVersion ("hello").data = none ∧ extract_version "hello" = "hello" :=
  ⟨by decide, extract_version_behavior.2.2 "hello" (by decide)⟩

/-- C3 (counterexample): with the Claude override directory pointing at
`\\wsl$\Ubuntu\home\u`, the probe goes through the WSL bridge even though
the direct invocation yields a version — refuting the claimed order in which
the bridge is attempted only after direct invocation and directory scan. -/
theorem wsl_override_preempts_direct_probe :
    wsl_distro_for_tool wslOverrides "claude" = some "Ubuntu" ∧
    probe_tool wslOverrides "claude" (some "1.0.0", none) (none, some "x")
      (fun _ => (some "2.0.0", none)) = (some "2.0.0", none) ∧
    ((some "2.0.0", none) : ProbeOutcome) ≠ (some "1.0.0", none) := by
  exact ⟨by decide, by decide, by decide⟩

/-- C3 (amended): when the tool's override directory names no WSL
distribution, the direct invocation is attempted first and wins when it
yields a version, with the directory scan used otherwise; when the override
directory names a WSL distribution, the probe goes exclusively through the
WSL bridge, never consulting the direct invocation or the scan. -/
theorem probe_strategy_order_amended :
    ∀ (ov : String → Option String) (tool : String) (direct scan : ProbeOutcome)
      (wsl : String → ProbeOutcome),
      (wsl_distro_for_tool ov tool = none →
        (direct.1.isSome = true → probe_tool ov tool direct scan wsl = direct) ∧
        (direct.1 = none → probe_tool ov tool direct scan wsl = scan)) ∧
      (∀ d, wsl_distro_for_tool ov tool = some d →
        ∀ direct2 scan2, probe_tool ov tool direct2 scan2 wsl = wsl d) := by
  intro ov tool direct scan wsl
  constructor
  · intro h
    constructor
    · intro hs
      unfold probe_tool
      rw [h]
      simp [hs]
    · intro hn
      unfold probe_tool
      rw [h]
      simp [hn]
  · intro d h direct2 scan2
    unfold probe_tool
    rw [h]

/-- C3 witness: both branches of `probe_strategy_order_amended` at concrete
inputs. -/
theorem probe_strategy_order_amended_witness :
    probe_tool (fun _ => none) "claude" (some "1.0.0", none) (none, some "x")
      (fun _ => (some "2.0.0", none)) = (some "1.0.0", none) ∧
    probe_tool wslOverrides "claude" (some "1.0.0", none) (none, some "x")
      (fun _ => (some "2.0.0", none)) = (some "2.0.0", none) :=
  ⟨((probe_strategy_order_amended (fun _ => none) "claude" (some "1.0.0", none)
      (none, some "x") (fun _ => (some "2.0.0", none))).1 (by decide)).1 (by decide),
    (probe_strategy_order_amended wslOverrides "claude" (some "1.0.0", none)
      (none, some "x") (fun _ => (some "2.0.0", none))).2 "Ubuntu" (by decide)
      (some "1.0.0", none) (none, some "x")⟩

/-- C8: every completed probe attempt — a direct/WSL command invocation or a
directory scan — populates exactly one of the `version` and `error` fields:
never both and never neither. -/
theorem probe_result_exactly_one_field :
    (∀ o : CmdOutcome, exactlyOnePopulated (try_get_version_with_command o)) ∧
    (∀ l : List CmdOutcome, exactlyOnePopulated (scan_cli_version l)) := by
  constructor
  · intro o
    cases o with
    | err e => exact Or.inr ⟨rfl, rfl⟩
    | ok success stdout stderr =>
      simp only [try_get_version_with_command, exactlyOnePopulated]
      repeat' split
      all_goals first
        | exact Or.inr ⟨rfl, rfl⟩
        | exact Or.inl ⟨rfl, rfl⟩
  · intro l
    induction l with
    | nil => exact Or.inr ⟨rfl, rfl⟩
    | cons o rest ih =>
      cases o with
      | err e => simpa only [scan_cli_version] using ih
      | ok success stdout stderr =>
        simp only [scan_cli_version]
        repeat' split
        all_goals first
          | exact Or.inl ⟨rfl, rfl⟩
          | exact ih

/-- C4 (code bug): on macOS, `register` derives the opencode entry's name
with `capitalize` (giving `Open Opencode Terminal.workflow`) while
`unregister` and `is_registered` match the prefix `Open OpenCode Terminal`
(capital C).  Registering with zero providers and then unregistering leaves
the opencode bundle behind, and `is_registered` cannot see it either. -/
theorem macos_unregister_keeps_opencode_entry :
    register_context_menu_macos [] (some []) =
      some ["Open Codex Terminal.workflow", "Open Gemini Terminal.workflow",
        "Open Opencode Terminal.workflow"] ∧
    unregister_context_menu_macos (register_context_menu_macos [] (some [])) =
      Except.ok (some ["Open Opencode Terminal.workflow"]) ∧
    is_context_menu_registered_macos (some ["Open Opencode Terminal.workflow"]) =
      false := by
  refine ⟨by decide, rfl, by decide⟩

/-- C1 (counterexample): the macOS `register` never clears stale provider
entries.  Registering one Claude provider from an empty Services directory
yields 1+3 = 4 Quick Action bundles, but a subsequent register with zero
providers still leaves 4 bundles, not 0+3 = 3: the stale
`Open Claude - A.workflow` survives repopulation. -/
theorem macos_register_keeps_stale_provider_entry :
    workflowEntryCount
      (register_context_menu_macos [("p1", ⟨"A", none⟩)] (some [])) = 1 + 3 ∧
    workflowEntryCount
      (register_context_menu_macos []
        (register_context_menu_macos [("p1", ⟨"A", none⟩)] (some []))) = 4 ∧
    (4 : Nat) ≠ 0 + 3 := by
  exact ⟨by decide, by decide, by decide⟩

/-- C7: `install_cli_tool` rejects an unknown tool name before consulting
any process-spawn oracle (the result is the fixed rejection value,
independent of every oracle), and for known tools the call resolves at the
transport level whenever the escalation chain obtained any process output —
carrying `success` mirroring the process exit status — while a transport
error occurs exactly when the chain ends with a spawn failure. -/
theorem install_cli_tool_transport_contract :
    ∀ (tool : String) (action : CliToolAction)
      (sudoCached noSudo prompt : Option ProcOut) (probedVersion : Option String),
      (tool ∉ knownCliTools →
        install_cli_tool tool action sudoCached noSudo prompt probedVersion =
          Except.ok (unsupportedResult tool action)) ∧
      (tool ∈ knownCliTools →
        ((∃ e, install_cli_tool tool action sudoCached noSudo prompt probedVersion =
            Except.error e) ↔ escalate_npm sudoCached noSudo prompt = none) ∧
        (∀ out, escalate_npm sudoCached noSudo prompt = some out →
          ∃ res, install_cli_tool tool action sudoCached noSudo prompt probedVersion =
              Except.ok res ∧ res.success = out.success)) := by
  intro tool action sudoCached noSudo prompt probedVersion
  constructor
  · intro hnot
    have hc : knownCliTools.contains tool = false := by
      by_contra hcc
      exact hnot (List.elem_iff.mp (Bool.of_not_eq_false hcc))
    unfold install_cli_tool
    rw [hc]
    rfl
  · intro hmem
    have hc : knownCliTools.contains tool = true := List.elem_iff.mpr hmem
    have hpkg : ∃ p, get_npm_package_for_tool tool = some p := by
      simp only [knownCliTools, List.mem_cons, List.mem_singleton] at hmem
      rcases hmem with rfl | rfl | rfl | rfl | h
      · exact ⟨_, rfl⟩
      · exact ⟨_, rfl⟩
      · exact ⟨_, rfl⟩
      · exact ⟨_, rfl⟩
      · exact absurd h (List.not_mem_nil tool)
    obtain ⟨p, hp⟩ := hpkg
    constructor
    · constructor
      · rintro ⟨e, he⟩
        by_contra hesc
        obtain ⟨out, hout⟩ := Option.ne_none_iff_exists'.mp hesc
        unfold install_cli_tool at he
        rw [hc, hp, hout] at he
        simp only [Bool.not_true, Bool.false_eq_true, if_false] at he
        by_cases hs : out.success <;> simp [hs] at he
      · intro hesc
        refine ⟨"执行 npm 命令失败: 执行授权命令失败", ?_⟩
        unfold install_cli_tool
        rw [hc, hp, hesc]
        rfl
    · intro out hout
      simp only [install_cli_tool, hc, hp, hout, Bool.not_true, Bool.false_eq_true,
        if_false]
      by_cases hs : out.success = true
      · rw [if_pos hs]
        exact ⟨_, rfl, hs.symm⟩
      · rw [if_neg hs]
        simp only [Bool.not_eq_true] at hs
        exact ⟨_, rfl, hs.symm⟩

/-- C7 witness: the rejection branch at the unknown tool `"zzz"` (with every
oracle denied), and the transport branches for `"claude"`: a spawned but
failing install resolves `Ok` with `success = false`, while an
all-spawns-failed chain is the transport error. -/
theorem install_cli_tool_transport_contract_witness :
    ("zzz" ∉ knownCliTools ∧
      install_cli_tool "zzz" CliToolAction.install none none none none =
        Except.ok (unsupportedResult "zzz" CliToolAction.install)) ∧
    ("claude" ∈ knownCliTools ∧
      escalate_npm none none (some ⟨false, "out", "err"⟩) =
        some ⟨false, "out", "err"⟩ ∧
      (∃ res, install_cli_tool "claude" CliToolAction.install none none
          (some ⟨false, "out", "err"⟩) none = Except.ok res ∧
          res.success = false) ∧
      (∃ e, install_cli_tool "claude" CliToolAction.install none none none none =
          Except.error e)) := by
  refine ⟨⟨by decide, ?_⟩, ⟨by decide, by decide, ?_, ?_⟩⟩
  · exact (install_cli_tool_transport_contract "zzz" CliToolAction.install
      none none none none).1 (by decide)
  · exact ((install_cli_tool_transport_contract "claude" CliToolAction.install
      none none (some ⟨false, "out", "err"⟩) none).2 (by decide)).2
      ⟨false, "out", "err"⟩ (by decide)
  · exact (((install_cli_tool_transport_contract "claude" CliToolAction.install
      none none none none).2 (by decide)).1).mpr (by decide)

/-- Strings with equal character data are equal. -/
theorem string_eq_of_data_eq {a b : String} (h : a.data = b.data) : a = b := by
  cases a; cases b; exact congrArg String.mk h

/-- Mapping the sanitizer over characters outside the reserved set is the
identity. -/
theorem map_sanitize_of_no_reserved (l : List Char)
    (h : ∀ c ∈ l, c ∉ reservedChars) : l.map sanitize_char = l := by
  induction l with
  | nil => rfl
  | cons c cs ih =>
    have hc : c ∉ reservedChars := h c (List.mem_cons_self c cs)
    simp only [List.map_cons, sanitize_char, if_neg hc]
    rw [ih (fun d hd => h d (List.mem_cons_of_mem c hd))]

/-- Two distinct lists of equal length differ at some position. -/
theorem exists_differing_get : ∀ (a b : List Char), a.length = b.length → a ≠ b →
    ∃ (i : Nat) (ha : i < a.length) (hb : i < b.length),
      a.get ⟨i, ha⟩ ≠ b.get ⟨i, hb⟩ := by
  intro a
  induction a with
  | nil =>
    intro b hlen hne
    cases b with
    | nil => exact absurd rfl hne
    | cons y bs => simp at hlen
  | cons x as ih =>
    intro b hlen hne
    cases b with
    | nil => simp at hlen
    | cons y bs =>
      by_cases hxy : x = y
      · subst hxy
        have hab : as ≠ bs := fun h => hne (by rw [h])
        obtain ⟨i, ha, hb, hget⟩ := ih bs (by simpa using hlen) hab
        exact ⟨i + 1, Nat.succ_lt_succ ha, Nat.succ_lt_succ hb, hget⟩
      · exact ⟨0, Nat.succ_pos _, Nat.succ_pos _, hxy⟩

/-- C9: sanitization is idempotent on ids free of reserved characters, and
two distinct ids that differ only in characters outside the reserved set
derive distinct Claude menu verbs. -/
theorem sanitize_idempotent_and_verb_injective :
    (∀ id : String, noReservedChars id →
      sanitize_registry_key (sanitize_registry_key id) = sanitize_registry_key id) ∧
    (∀ a b : String, a ≠ b → diffOnlyOutsideReserved a b →
      claude_provider_verb a ≠ claude_provider_verb b) := by
  constructor
  · intro id h
    have hfix : sanitize_registry_key id = id := by
      apply string_eq_of_data_eq
      show id.data.map sanitize_char = id.data
      exact map_sanitize_of_no_reserved id.data h
    rw [hfix]
    exact hfix
  · intro a b hne hdiff h
    have hd : ("ccswitch.claude." ++ sanitize_registry_key a).data =
        ("ccswitch.claude." ++ sanitize_registry_key b).data := congrArg String.data h
    rw [String.data_append, String.data_append] at hd
    have hmap : a.data.map sanitize_char = b.data.map sanitize_char :=
      List.append_cancel_left hd
    have hlen : a.data.length = b.data.length := by
      have := congrArg List.length hmap
      simpa using this
    have hne2 : a.data ≠ b.data := fun hh => hne (string_eq_of_data_eq hh)
    obtain ⟨i, ha, hb, hget⟩ := exists_differing_get a.data b.data hlen hne2
    obtain ⟨hra, hrb⟩ := hdiff i ha hb hget
    have hq : (a.data.map sanitize_char)[i]? = (b.data.map sanitize_char)[i]? := by
      rw [hmap]
    rw [List.getElem?_map, List.getElem?_map, List.getElem?_eq_getElem ha,
      List.getElem?_eq_getElem hb] at hq
    have hq2 : sanitize_char (a.data.get ⟨i, ha⟩) =
        sanitize_char (b.data.get ⟨i, hb⟩) := by
      have := Option.some.inj hq
      simpa using this
    simp only [sanitize_char, if_neg hra, if_neg hrb] at hq2
    exact hget hq2

/-- C9 witness: idempotence at the reserved-free id `"abc"`, and verb
distinctness at the pair `"a"`, `"b"`. -/
theorem sanitize_idempotent_and_verb_injective_witness :
    ((∀ c ∈ ("abc" : String).data, c ∉ reservedChars) ∧
      sanitize_registry_key (sanitize_registry_key "abc") =
        sanitize_registry_key "abc") ∧
    ("a" ≠ ("b" : String) ∧ claude_provider_verb "a" ≠ claude_provider_verb "b") := by
  constructor
  · exact ⟨by decide, (sanitize_idempotent_and_verb_injective).1 "abc"
      (by unfold noReservedChars; decide)⟩
  · have hdiff : diffOnlyOutsideReserved "a" "b" := by
      intro i ha hb hne
      have h1 : ("a" : String).data.length = 1 := by decide
      have hi : i = 0 := by omega
      subst hi
      have hga : ("a" : String).data.get ⟨0, ha⟩ = 'a' := rfl
      have hgb : ("b" : String).data.get ⟨0, hb⟩ = 'b' := rfl
      rw [hga, hgb]
      exact ⟨by decide, by decide⟩
    exact ⟨by decide,
      (sanitize_idempotent_and_verb_injective).2 "a" "b" (by decide) hdiff⟩

/-- `listPre` on two one-step extensions of the same path tests the added
components. -/
theorem listPre_append_single (p : RegPath) (n m : String) :
    listPre (p ++ [n]) (p ++ [m]) = (n == m) := by
  induction p with
  | nil => simp [listPre]
  | cons a as ih => simp [listPre, ih]

/-- Taking the length of the left part of an append returns it. -/
theorem take_len_append : ∀ (p q : List String), (p ++ q).take p.length = p := by
  intro p q
  induction p with
  | nil => rfl
  | cons a as ih => simp [List.take_succ_cons, ih]

/-- Dropping the length of the left part of an append returns the right. -/
theorem drop_len_append : ∀ (p q : List String), (p ++ q).drop p.length = q := by
  intro p q
  induction p with
  | nil => rfl
  | cons a as ih => simp [ih]

/-- The one-step extension of `p` by `[n]` is its child named `n`. -/
theorem childName_append_single (p : RegPath) (n : String) :
    childName p (p ++ [n]) = some n := by
  unfold childName
  rw [take_len_append, drop_len_append]
  simp

/-- A two-step extension of `p` is not a direct child. -/
theorem childName_append_pair (p : RegPath) (a b : String) :
    childName p (p ++ [a, b]) = none := by
  unfold childName
  rw [take_len_append, drop_len_append]
  simp

/-- A key with child name `n` under `p` is exactly `p ++ [n]`. -/
theorem childName_of_eq_some {p k : RegPath} {n : String}
    (h : childName p k = some n) : k = p ++ [n] := by
  unfold childName at h
  by_cases htake : k.take p.length = p
  · rw [if_pos htake] at h
    rcases hd : k.drop p.length with _ | ⟨x, tail⟩
    · rw [hd] at h
      exact absurd h (by simp)
    · rcases tail with _ | ⟨y, ys⟩
      · rw [hd] at h
        have hx : x = n := by simpa using h
        subst hx
        calc k = k.take p.length ++ k.drop p.length := (List.take_append_drop _ _).symm
          _ = p ++ [x] := by rw [htake, hd]
      · rw [hd] at h
        exact absurd h (by simp)
  · rw [if_neg htake] at h
    exact absurd h (by simp)

/-- Enumerating after consing a direct child. -/
theorem enumKeys_cons_some {p k : RegPath} {n : String} {r : Registry}
    (h : childName p k = some n) : enumKeys p (k :: r) = n :: enumKeys p r := by
  simp only [enumKeys, List.filterMap_cons, h]

/-- Enumerating after consing a non-child. -/
theorem enumKeys_cons_none {p k : RegPath} {r : Registry}
    (h : childName p k = none) : enumKeys p (k :: r) = enumKeys p r := by
  simp only [enumKeys, List.filterMap_cons, h]

/-- The clearing loop stops when the enumeration index runs past the
current children. -/
theorem clearShellChildrenLoop_none (base : RegPath) (r : Registry) (i : Nat)
    (h : (enumKeys (shellSubPath base) r)[i]? = none) :
    clearShellChildrenLoop base r i = r := by
  rw [clearShellChildrenLoop.eq_def]
  split
  · rfl
  · next n heq => rw [h] at heq; exact Option.noConfusion heq

/-- The clearing loop deletes the child at the current enumeration index and
continues at the next index against the mutated registry. -/
theorem clearShellChildrenLoop_some (base : RegPath) (r : Registry) (i : Nat)
    (n : String) (h : (enumKeys (shellSubPath base) r)[i]? = some n) :
    clearShellChildrenLoop base r i =
      clearShellChildrenLoop base (regDeleteAll (shellSubPath base ++ [n]) r)
        (i + 1) := by
  rw [clearShellChildrenLoop.eq_def]
  split
  · next heq => rw [h] at heq; exact Option.noConfusion heq
  · next m heq =>
    rw [h] at heq
    cases Option.some.inj heq
    rfl

/-- Deleting the subtree of the child named `n` removes exactly the children
of that name from the enumeration, preserving the order of the rest. -/
theorem enumKeys_regDeleteAll_child (p : RegPath) (n : String) :
    ∀ r : Registry, enumKeys p (regDeleteAll (p ++ [n]) r) =
      (enumKeys p r).filter (fun m => !(n == m)) := by
  intro r
  induction r with
  | nil => rfl
  | cons k rest ih =>
    unfold regDeleteAll at ih ⊢
    simp only [List.filter_cons]
    rcases hc : childName p k with _ | m
    · rw [enumKeys_cons_none hc]
      by_cases hb : (!(listPre (p ++ [n]) k)) = true
      · rw [if_pos hb, enumKeys_cons_none hc]
        exact ih
      · rw [if_neg hb]
        exact ih
    · have hk := childName_of_eq_some hc
      subst hk
      rw [enumKeys_cons_some hc]
      simp only [List.filter_cons, listPre_append_single]
      by_cases hnm : (!(n == m)) = true
      · rw [if_pos hnm, if_pos hnm, enumKeys_cons_some hc, ih]
      · rw [if_neg hnm, if_neg hnm]
        exact ih

/-- Creating a key that is not a direct child of `p` leaves the enumeration
of `p` unchanged. -/
theorem enumKeys_regCreate_none (p q : RegPath) (r : Registry)
    (h : childName p q = none) : enumKeys p (regCreate q r) = enumKeys p r := by
  unfold regCreate
  split
  · rfl
  · exact enumKeys_cons_none h

/-- When `Shell` has no children the clearing loop is the identity. -/
theorem clearShellChildren_of_no_children (base : RegPath) (r : Registry)
    (h : enumKeys (shellSubPath base) r = []) : clearShellChildren base r = r := by
  rw [clearShellChildren]
  exact clearShellChildrenLoop_none base r 0 (by rw [h]; rfl)

/-- With exactly two children, the index-based clearing loop deletes the
first, the increment skips over the shifted second, and the loop ends — the
second child survives. -/
theorem clear_two_children (base : RegPath) (r : Registry) (a b : String)
    (hch : enumKeys (shellSubPath base) r = [a, b]) (hne : a ≠ b) :
    clearShellChildren base r = regDeleteAll (shellSubPath base ++ [a]) r := by
  have h0 : (enumKeys (shellSubPath base) r)[0]? = some a := by rw [hch]; rfl
  rw [clearShellChildren, clearShellChildrenLoop_some base r 0 a h0]
  have h1 : (enumKeys (shellSubPath base)
      (regDeleteAll (shellSubPath base ++ [a]) r))[1]? = none := by
    rw [enumKeys_regDeleteAll_child, hch]
    simp [List.filter_cons, hne]
  exact clearShellChildrenLoop_none _ _ _ h1

/-- Folding verb registrations over a registry whose `Shell` children are
`done` appends the new verbs (in reverse creation order), provided no new
verb repeats an existing or earlier one. -/
theorem enumKeys_foldl_verbs (base : RegPath) :
    ∀ (vs : List String) (c : Registry) (done : List String),
      enumKeys (shellSubPath base) c = done →
      (∀ v ∈ vs, v ∉ done) →
      vs.Nodup →
      enumKeys (shellSubPath base)
        (vs.foldl (fun acc v => register_shell_verb base v acc) c) =
        vs.reverse ++ done := by
  intro vs
  induction vs with
  | nil =>
    intro c done hc _ _
    simpa using hc
  | cons v vs ih =>
    intro c done hc hnotin hnd
    have hvdone : v ∉ done := hnotin v (List.mem_cons_self v vs)
    have hkey1 : (shellSubPath base ++ [v]) ∉ c := by
      intro hmem
      apply hvdone
      rw [← hc]
      exact List.mem_filterMap.mpr ⟨_, hmem, childName_append_single _ _⟩
    have hstep : enumKeys (shellSubPath base) (register_shell_verb base v c) =
        v :: done := by
      simp only [register_shell_verb, regCreate]
      rw [if_neg hkey1]
      by_cases h2 :
          (shellSubPath base ++ [v, "command"]) ∈ (shellSubPath base ++ [v]) :: c
      · rw [if_pos h2, enumKeys_cons_some (childName_append_single _ _), hc]
      · rw [if_neg h2, enumKeys_cons_none (childName_append_pair _ _ _),
          enumKeys_cons_some (childName_append_single _ _), hc]
    have hnotin2 : ∀ u ∈ vs, u ∉ v :: done := by
      intro u hu
      have hne : u ≠ v := by
        intro h
        subst h
        exact (List.nodup_cons.mp hnd).1 hu
      have hnd2 : u ∉ done := hnotin u (List.mem_cons_of_mem v hu)
      simp [hne, hnd2]
    have hrec := ih (register_shell_verb base v c) (v :: done) hstep hnotin2
      (List.nodup_cons.mp hnd).2
    simpa [List.foldl_cons, List.reverse_cons, List.append_assoc] using hrec

/-- A Claude provider verb never coincides with a string whose character at
index 10 is not `l`. -/
theorem claude_verb_ne_of_tenth (s v : String) (hv : v.data[10]? ≠ some 'l') :
    claude_provider_verb s ≠ v := by
  intro h
  unfold claude_provider_verb at h
  have hd : ("ccswitch.claude." ++ sanitize_registry_key s).data = v.data :=
    congrArg String.data h
  rw [String.data_append] at hd
  have h10 := congrArg (fun l => l[10]?) hd
  simp only at h10
  rw [List.getElem?_append_left (by decide)] at h10
  have hl : ("ccswitch.claude." : String).data[10]? = some 'l' := by decide
  rw [hl] at h10
  exact hv h10.symm

/-- C1 (amended, Windows registrar): from a prior state in which the `Shell`
key has no children — in particular the first registration — `register`
leaves exactly the N provider verbs plus the three direct verbs as children,
N+3 actionable entries, provided the sanitized provider verbs are pairwise
distinct.  Re-registration over existing children is not reliably clearing:
the source deletes children while enumerating them with an incrementing
index, which skips every other child; the second conjunct demonstrates it —
re-registering with zero providers over two stale provider verbs leaves four
entries including the stale `ccswitch.claude.old2`, not 0+3. -/
theorem windows_register_entry_count :
    (∀ (providers : List (String × Provider)) (r : Registry),
      enumKeys (shellSubPath menuRegistryPath) r = [] →
      (providers.map (fun pp => claude_provider_verb pp.1)).Nodup →
      enumKeys (shellSubPath menuRegistryPath)
          (register_context_menu_win providers r) =
        (allRegisteredVerbs providers).reverse ∧
      (enumKeys (shellSubPath menuRegistryPath)
          (register_context_menu_win providers r)).length =
        providers.length + 3) ∧
    enumKeys (shellSubPath menuRegistryPath)
      (register_context_menu_win []
        [shellSubPath menuRegistryPath ++ ["ccswitch.claude.old1"],
         shellSubPath menuRegistryPath ++ ["ccswitch.claude.old2"]]) =
      ["ccswitch.opencode", "ccswitch.gemini", "ccswitch.codex",
        "ccswitch.claude.old2"] := by
  constructor
  · intro providers r hfresh hnd
    have hform : (["codex", "gemini", "opencode"].map (fun app => "ccswitch." ++ app)) =
        ["ccswitch.codex", "ccswitch.gemini", "ccswitch.opencode"] := by decide
    have hmain : enumKeys (shellSubPath menuRegistryPath)
        (register_context_menu_win providers r) =
        (allRegisteredVerbs providers).reverse := by
      unfold register_context_menu_win register_menus_at_path
      have hr2 : enumKeys (shellSubPath menuRegistryPath)
          (regCreate (shellSubPath menuRegistryPath)
            (regCreate menuRegistryPath r)) = [] := by
        rw [enumKeys_regCreate_none _ _ _ (by decide),
          enumKeys_regCreate_none _ _ _ (by decide)]
        exact hfresh
      have h0 : enumKeys (shellSubPath menuRegistryPath)
          (clearShellChildren menuRegistryPath
            (regCreate (shellSubPath menuRegistryPath)
              (regCreate menuRegistryPath r))) = [] := by
        rw [clearShellChildren_of_no_children _ _ hr2]
        exact hr2
      have h1 := enumKeys_foldl_verbs menuRegistryPath
        (providers.map (fun pp => claude_provider_verb pp.1)) _ [] h0 (by simp) hnd
      rw [List.foldl_map] at h1
      have hnotin : ∀ v ∈ ["codex", "gemini", "opencode"].map
          (fun app => "ccswitch." ++ app),
          v ∉ (providers.map (fun pp => claude_provider_verb pp.1)).reverse ++
            ([] : List String) := by
        intro v hv
        rw [hform] at hv
        intro hvmem
        simp only [List.append_nil, List.mem_reverse, List.mem_map] at hvmem
        obtain ⟨pp, _, hpp⟩ := hvmem
        simp only [List.mem_cons, List.mem_singleton, List.not_mem_nil,
          or_false] at hv
        rcases hv with rfl | rfl | rfl
        · exact claude_verb_ne_of_tenth pp.1 _ (by decide) hpp
        · exact claude_verb_ne_of_tenth pp.1 _ (by decide) hpp
        · exact claude_verb_ne_of_tenth pp.1 _ (by decide) hpp
      have hnodup : (["codex", "gemini", "opencode"].map
          (fun app => "ccswitch." ++ app)).Nodup := by
        rw [hform]
        decide
      have h2 := enumKeys_foldl_verbs menuRegistryPath
        (["codex", "gemini", "opencode"].map (fun app => "ccswitch." ++ app)) _ _
        h1 hnotin hnodup
      rw [List.foldl_map, hform] at h2
      rw [h2]
      simp [allRegisteredVerbs, List.reverse_append]
    refine ⟨hmain, ?_⟩
    rw [hmain]
    simp [allRegisteredVerbs]
  · have hclear := clear_two_children menuRegistryPath
      (regCreate (shellSubPath menuRegistryPath)
        (regCreate menuRegistryPath
          [shellSubPath menuRegistryPath ++ ["ccswitch.claude.old1"],
           shellSubPath menuRegistryPath ++ ["ccswitch.claude.old2"]]))
      "ccswitch.claude.old1" "ccswitch.claude.old2" (by decide) (by decide)
    unfold register_context_menu_win register_menus_at_path
    rw [hclear]
    decide

/-- C1 witness: the fresh-state half of the amended statement at two
concrete providers over the empty prior registry: exactly 2+3 entries, the
two provider verbs plus the three direct verbs. -/
theorem windows_register_entry_count_witness :
    enumKeys (shellSubPath menuRegistryPath) ([] : Registry) = [] ∧
    ([("p1", ⟨"A", none⟩), ("p2", ⟨"B", some "note"⟩)].map
        (fun pp : String × Provider => claude_provider_verb pp.1)).Nodup ∧
    enumKeys (shellSubPath menuRegistryPath)
        (register_context_menu_win
          [("p1", ⟨"A", none⟩), ("p2", ⟨"B", some "note"⟩)] []) =
      (allRegisteredVerbs [("p1", ⟨"A", none⟩), ("p2", ⟨"B", some "note"⟩)]).reverse ∧
    (enumKeys (shellSubPath menuRegistryPath)
        (register_context_menu_win
          [("p1", ⟨"A", none⟩), ("p2", ⟨"B", some "note"⟩)] [])).length = 2 + 3 := by
  refine ⟨rfl, by decide, ?_, ?_⟩
  · exact (windows_register_entry_count.1
      [("p1", ⟨"A", none⟩), ("p2", ⟨"B", some "note"⟩)] [] rfl (by decide)).1
  · exact (windows_register_entry_count.1
      [("p1", ⟨"A", none⟩), ("p2", ⟨"B", some "note"⟩)] [] rfl (by decide)).2
